import Mathlib

/-!
Verification development for the xmlui-launcher bundler (xmlui-bundler.go).

The Go program is shallowly embedded: each Go function that the claims
touch becomes a Lean definition over explicit state.  Effectful OS
primitives (HTTP responses, file creation, file writes, renames) are
modelled by explicit oracles passed as parameters, so a failure of a
primitive is an input to the Lean function just as it is an input to the
Go program.  Paths are strings joined with a slash; the path-cleaning of
Go's filepath.Join is not modelled because no claim depends on it.
-/

/-- Model of Go strings.HasSuffix, on the character lists of the strings. -/
def strHasSuffix (s pat : String) : Bool := pat.data.isSuffixOf s.data

/-- Model of Go strings.HasPrefix, on the character lists of the strings. -/
def strStartsWith (s pat : String) : Bool := pat.data.isPrefixOf s.data

/-- Model of Go strings.Contains, on the character lists of the strings. -/
def strContains (s pat : String) : Bool := s.data.tails.any (fun t => pat.data.isPrefixOf t)

/-- Base URL used by getPlatformSpecificMCPURL (xmlui-bundler.go line 25). -/
def mcpBaseURL : String := "https://github.com/jonudell/xmlui-mcp/releases/download/v1.0.0/"

/-- Base URL used by getPlatformSpecificServerURL (xmlui-bundler.go line 43). -/
def serverBaseURL : String := "https://github.com/JonUdell/xmlui-test-server/releases/download/v1.0.0/"

/-- Embedding of getPlatformSpecificMCPURL (xmlui-bundler.go lines 24-40).
The Go switch on runtime.GOOS with an inner arch test under darwin becomes
a chain of string comparisons; runtime.GOOS and runtime.GOARCH become the
parameters goos and goarch. -/
def getPlatformSpecificMCPURL (goos goarch : String) : String :=
  if goos = "darwin" then
    if goarch = "arm64" then mcpBaseURL ++ "xmlui-mcp-mac-arm.tar.gz"
    else mcpBaseURL ++ "xmlui-mcp-mac-amd.tar.gz"
  else if goos = "linux" then mcpBaseURL ++ "xmlui-mcp-linux-amd64.zip"
  else if goos = "windows" then mcpBaseURL ++ "xmlui-mcp-windows-amd64.zip"
  else mcpBaseURL ++ "xmlui-mcp-mac-arm.tar.gz"

/-- Embedding of getPlatformSpecificServerURL (xmlui-bundler.go lines 42-58). -/
def getPlatformSpecificServerURL (goos goarch : String) : String :=
  if goos = "darwin" then
    if goarch = "arm64" then serverBaseURL ++ "xmlui-test-server-mac-arm.tar.gz"
    else serverBaseURL ++ "xmlui-test-server-mac-amd.tar.gz"
  else if goos = "linux" then serverBaseURL ++ "xmlui-test-server-linux-amd64.tar.gz"
  else if goos = "windows" then serverBaseURL ++ "xmlui-test-server-windows-amd64.zip"
  else serverBaseURL ++ "xmlui-test-server-mac-arm.tar.gz"

/-- Model of Go filepath.Join for the two-argument uses in this program:
join with a slash.  (filepath.Join also cleans the path; no claim depends
on cleaning.) -/
def joinPath (a b : String) : String := a ++ "/" ++ b

/-- Characters after the last slash of the path, as a scan that resets its
accumulator at each slash. -/
def baseNameAux : List Char → List Char → List Char
  | [], acc => acc.reverse
  | c :: rest, acc => if c = '/' then baseNameAux rest [] else baseNameAux rest (c :: acc)

/-- Model of Go filepath.Base on the paths this program builds: the last
slash-separated component.  (filepath.Base additionally strips trailing
slashes and maps the empty path to a dot; the extractor only applies it to
file paths whose last component is a file name, where the two agree.) -/
def baseName (p : String) : String := String.mk (baseNameAux p.data [])

/-- Filesystem contents touched by extraction: written files as an
association list (newest write first) and the set of paths whose execute
bit has been set. -/
structure FSState where
  files : List (String × String)
  execBits : List String
deriving DecidableEq

/-- Model of writing a file: os.Create followed by io.Copy of the content. -/
def writeFile (fs : FSState) (path content : String) : FSState :=
  { fs with files := (path, content) :: fs.files }

/-- Model of os.Chmod(path, 0755). -/
def chmodExec (fs : FSState) (path : String) : FSState :=
  { fs with execBits := path :: fs.execBits }

/-- Outcome of an extraction run: the filesystem as left behind, plus the
error returned to the caller when extraction aborted. -/
structure ExtractResult where
  fs : FSState
  err : Option String
deriving DecidableEq

/-- One entry of a zip archive as seen by archive/zip: a stored name, the
directory flag from f.FileInfo().IsDir(), a possible failure of f.Open()
(decompression error for this entry), and the entry content. -/
structure ZipEntry where
  name : String
  isDir : Bool
  openErr : Option String
  content : String
deriving DecidableEq

/-- Embedding of the entry loop of unzipTo (xmlui-bundler.go lines 106-124).
The oracle createFails says which os.Create calls fail and copyFails which
io.Copy calls fail.  The Go source discards the result of io.Copy
(line 121), so a copy failure leaves the created file truncated and the
loop continues; this is embedded as written. -/
def unzipLoop (dest : String) (createFails copyFails : String → Bool) :
    List ZipEntry → FSState → ExtractResult
  | [], fs => ⟨fs, none⟩
  | e :: rest, fs =>
    let fpath := joinPath dest e.name
    if e.isDir then unzipLoop dest createFails copyFails rest fs
    else
      match e.openErr with
      | some msg => ⟨fs, some msg⟩
      | none =>
        if createFails fpath then ⟨fs, some ("create failed: " ++ fpath)⟩
        else
          let fs1 := if copyFails fpath then writeFile fs fpath ""
                     else writeFile fs fpath e.content
          unzipLoop dest createFails copyFails rest fs1

/-- Embedding of unzipTo (xmlui-bundler.go lines 101-126).  A none archive
models zip.NewReader failing on malformed data (line 102-105); unzipTo
sets no execute bits. -/
def unzipTo (archive : Option (List ZipEntry)) (dest : String)
    (createFails copyFails : String → Bool) (fs : FSState) : ExtractResult :=
  match archive with
  | none => ⟨fs, some "zip: not a valid zip file"⟩
  | some entries => unzipLoop dest createFails copyFails entries fs

/-- A tar header with its file content, as read by tar.Reader. -/
structure TarHeader where
  name : String
  isDir : Bool
  content : String
deriving DecidableEq

/-- One step of the tar stream: either a good entry, or tarReader.Next
returning a non-EOF error (malformed header or decompression error midway);
the end of the list is io.EOF. -/
inductive TarItem where
  | entry : TarHeader → TarItem
  | readErr : String → TarItem
deriving DecidableEq

/-- The executable-bit condition of untarGzTo (xmlui-bundler.go lines
158-159): a .sh suffix on the full path, or a base name equal to one of the
three known binaries. -/
def isExecName (fpath : String) : Bool :=
  strHasSuffix fpath ".sh" || baseName fpath == "xmlui-mcp" ||
    baseName fpath == "xmlui-mcp-client" || baseName fpath == "xmlui-test-server"

/-- Embedding of the entry loop of untarGzTo (xmlui-bundler.go lines
134-164).  Unlike unzipTo, the io.Copy result is checked (line 152), so a
copy failure aborts with the error, leaving the just-created truncated file
and all earlier files in place. -/
def untarGzLoop (dest : String) (createFails copyFails : String → Bool) :
    List TarItem → FSState → ExtractResult
  | [], fs => ⟨fs, none⟩
  | TarItem.readErr msg :: _, fs => ⟨fs, some msg⟩
  | TarItem.entry h :: rest, fs =>
    let fpath := joinPath dest h.name
    if h.isDir then untarGzLoop dest createFails copyFails rest fs
    else if createFails fpath then ⟨fs, some ("create failed: " ++ fpath)⟩
    else if copyFails fpath then ⟨writeFile fs fpath "", some ("copy failed: " ++ fpath)⟩
    else
      let fs1 := writeFile fs fpath h.content
      let fs2 := if isExecName fpath then chmodExec fs1 fpath else fs1
      untarGzLoop dest createFails copyFails rest fs2

/-- Embedding of untarGzTo (xmlui-bundler.go lines 128-166).  A none
archive models gzip.NewReader failing on malformed data (lines 129-132). -/
def untarGzTo (archive : Option (List TarItem)) (dest : String)
    (createFails copyFails : String → Bool) (fs : FSState) : ExtractResult :=
  match archive with
  | none => ⟨fs, some "gzip: invalid header"⟩
  | some items => untarGzLoop dest createFails copyFails items fs

/-- A directory entry as returned by os.ReadDir: a name and the directory
flag (which moveIntoPlace never consults). -/
structure DirEntry where
  name : String
  isDir : Bool
deriving DecidableEq

/-- Result of a successful moveIntoPlace: the returned path and the one
rename that was performed. -/
structure MoveResult where
  returned : String
  renamedFrom : String
  renamedTo : String
deriving DecidableEq

/-- Embedding of the entry loop of moveIntoPlace (xmlui-bundler.go lines
174-184): the first entry whose name starts with repoName followed by a
dash is renamed to installDir/repoName and its path returned; renameFails
says which os.Rename calls fail. -/
def moveLoop (renameFails : String → String → Bool) (srcParent rn installDir : String) :
    List DirEntry → Except String MoveResult
  | [] => Except.error "repo dir not found"
  | e :: rest =>
    if strStartsWith e.name (rn ++ "-") then
      let tmp := joinPath srcParent e.name
      let final := joinPath installDir rn
      if renameFails tmp final then Except.error ("rename failed: " ++ tmp)
      else Except.ok ⟨final, tmp, final⟩
    else moveLoop renameFails srcParent rn installDir rest

/-- Embedding of moveIntoPlace (xmlui-bundler.go lines 168-185).  A none
entry list models os.ReadDir failing (lines 170-173). -/
def moveIntoPlace (renameFails : String → String → Bool)
    (entries : Option (List DirEntry)) (srcParent rn installDir : String) :
    Except String MoveResult :=
  match entries with
  | none => Except.error "readdir failed"
  | some es => moveLoop renameFails srcParent rn installDir es

/-- The private-repository URL marker tested by strings.Contains at
xmlui-bundler.go lines 70 and 87. -/
def privateRepoPat : String := "codeload.github.com/xmlui-com/xmlui"

/-- An HTTP response as the status-handling code sees it: numeric status
code, status text, a possible io.ReadAll failure, and the body bytes. -/
structure HttpResponse where
  statusCode : Nat
  status : String
  readErr : Option String
  body : List Nat
deriving DecidableEq

/-- The authentication-failure message built at xmlui-bundler.go line 88. -/
def authFailMsg (url status : String) : String :=
  "authentication failed for private repository: " ++ url ++
    " (status: " ++ status ++ ") - check PAT_TOKEN"

/-- The generic request-failure message built at xmlui-bundler.go line 90. -/
def requestFailMsg (status url : String) : String :=
  "request failed: " ++ status ++ " for URL: " ++ url

/-- Embedding of the response handling of downloadWithProgress
(xmlui-bundler.go lines 86-98): classify a non-200 status, else read the
body. -/
def downloadResponseCheck (url : String) (resp : HttpResponse) :
    Except String (List Nat) :=
  if resp.statusCode ≠ 200 then
    if strContains url privateRepoPat && resp.statusCode == 401 then
      Except.error (authFailMsg url resp.status)
    else
      Except.error (requestFailMsg resp.status url)
  else
    match resp.readErr with
    | some msg => Except.error msg
    | none => Except.ok resp.body

/-- One line printed by the expected-file relocation loop: either the
moved message (xmlui-bundler.go line 297) or the skip message (line 294). -/
inductive LogMsg where
  | moved : String → String → LogMsg
  | skipped : String → LogMsg
deriving DecidableEq

/-- State of the expected-file relocation: names still in the staging
directory mcpTmp, names now in the mcp directory, paths chmodded 0755, and
the log lines printed so far. -/
structure RelocState where
  staged : List String
  mcpFiles : List String
  execBits : List String
  logs : List LogMsg
deriving DecidableEq

/-- The platform-dependent expected file list (xmlui-bundler.go lines
283-288). -/
def expectedFiles (goos : String) : List String :=
  if goos = "windows" then ["xmlui-mcp.exe", "xmlui-mcp-client.exe", "run-mcp-client.bat"]
  else ["xmlui-mcp", "xmlui-mcp-client", "prepare-binaries.sh", "run-mcp-client.sh"]

/-- The chmod condition of the relocation loop (xmlui-bundler.go line
300): not Windows, and a .sh suffix or a dot-free name. -/
def relocChmodCond (goos name : String) : Bool :=
  goos != "windows" && (strHasSuffix name ".sh" || !strContains name ".")

/-- One successful iteration of the relocation loop (xmlui-bundler.go
lines 291-302): move the staged file into the mcp directory, print the
moved line, and chmod when the platform condition holds. -/
def relocMove (goos mcpDir name : String) (st : RelocState) : RelocState :=
  let dst := joinPath mcpDir name
  let st1 : RelocState :=
    { st with staged := st.staged.erase name,
              mcpFiles := name :: st.mcpFiles,
              logs := st.logs ++ [LogMsg.moved name dst] }
  if relocChmodCond goos name then { st1 with execBits := dst :: st1.execBits }
  else st1

/-- Embedding of the relocation loop (xmlui-bundler.go lines 290-303).
os.Rename of a staged file succeeds exactly when the file is present in
the staging directory; a failed rename prints one skip line and the loop
continues with the next name. -/
def relocateLoop (goos mcpDir : String) : List String → RelocState → RelocState
  | [], st => st
  | name :: rest, st =>
    if name ∈ st.staged then
      relocateLoop goos mcpDir rest (relocMove goos mcpDir name st)
    else
      relocateLoop goos mcpDir rest
        { st with logs := st.logs ++ [LogMsg.skipped name] }

/-- The relocation step of main, over the platform's expected file list. -/
def relocateExpected (goos mcpDir : String) (st : RelocState) : RelocState :=
  relocateLoop goos mcpDir (expectedFiles goos) st

/-- How many skip lines for the file named f a log contains. -/
def skipCount (logs : List LogMsg) (f : String) : Nat :=
  logs.countP (fun m => m == LogMsg.skipped f)

/-- Modelled from the OS contract behind os.Rename (POSIX rename(2)):
renaming a directory onto an existing directory succeeds only when the
target directory is empty.  At the stray-move step the targets mcp/docs
and mcp/src always exist, created by MkdirAll at xmlui-bundler.go lines
239-240, so only the emptiness of the target decides the outcome. -/
def renameOntoDirSucceeds (targetNonempty : Bool) : Bool := !targetNonempty

/-- The directories the stray-move step of main can see: whether docs and
src exist at the install root, whether each root directory and each
existing mcp target directory is non-empty, and the warnings printed. -/
structure StrayState where
  rootDocs : Bool
  rootSrc : Bool
  rootDocsNonempty : Bool
  rootSrcNonempty : Bool
  mcpDocsNonempty : Bool
  mcpSrcNonempty : Bool
  warnings : List String
deriving DecidableEq

/-- Embedding of the root-docs move (xmlui-bundler.go lines 309-313):
when installDir/docs exists, os.Rename it onto mcp/docs; a failed rename
prints a warning and the run continues. -/
def moveStrayDocs (st : StrayState) : StrayState :=
  if st.rootDocs then
    if renameOntoDirSucceeds st.mcpDocsNonempty then
      { st with rootDocs := false, mcpDocsNonempty := st.rootDocsNonempty }
    else { st with warnings := st.warnings ++ ["Could not move docs directory"] }
  else st

/-- Embedding of the root-src move (xmlui-bundler.go lines 315-319). -/
def moveStraySrc (st : StrayState) : StrayState :=
  if st.rootSrc then
    if renameOntoDirSucceeds st.mcpSrcNonempty then
      { st with rootSrc := false, mcpSrcNonempty := st.rootSrcNonempty }
    else { st with warnings := st.warnings ++ ["Could not move src directory"] }
  else st

/-- The stray-move step of main (xmlui-bundler.go lines 308-319): docs
first, then src. -/
def moveStrayDirs (st : StrayState) : StrayState := moveStraySrc (moveStrayDocs st)

/-- Model of os.RemoveAll on a filesystem given as a list of paths (each a
list of components relative to the install directory): every path inside
the removed root disappears, every other path stays. -/
def removeAll (root : List String) (fsPaths : List (List String)) : List (List String) :=
  fsPaths.filter (fun p => !(root.isPrefixOf p))

/-- The two staging-directory cleanups of main: os.RemoveAll on
xmlui-source (xmlui-bundler.go line 258) and on mcpTmp (line 306). -/
def cleanupStagingDirs (fsPaths : List (List String)) : List (List String) :=
  removeAll ["mcpTmp"] (removeAll ["xmlui-source"] fsPaths)

/-- C1 fails on the code as stated: on linux the tool-archive resolver
getPlatformSpecificMCPURL returns a URL ending in .zip (and hence not in
.tar.gz) although linux is not Windows. -/
theorem C1_counterexample :
    strHasSuffix (getPlatformSpecificMCPURL "linux" "amd64") ".zip" = true ∧
    strHasSuffix (getPlatformSpecificMCPURL "linux" "amd64") ".tar.gz" = false ∧
    "linux" ≠ "windows" :=
  ⟨by decide, by decide, by decide⟩

/-- C1 (amended): the tool-archive resolver returns a URL ending in .zip
exactly when the OS is Windows or Linux and one ending in .tar.gz on every
other OS; the server resolver returns .zip exactly on Windows and .tar.gz
elsewhere; every unrecognized OS returns the designated default (the macOS
ARM64 asset) for both resolvers rather than failing. -/
theorem C1_amended (goos goarch : String) :
    (strHasSuffix (getPlatformSpecificMCPURL goos goarch) ".zip" = true ↔
      (goos = "windows" ∨ goos = "linux")) ∧
    ((goos ≠ "windows" ∧ goos ≠ "linux") →
      strHasSuffix (getPlatformSpecificMCPURL goos goarch) ".tar.gz" = true) ∧
    (strHasSuffix (getPlatformSpecificServerURL goos goarch) ".zip" = true ↔
      goos = "windows") ∧
    (goos ≠ "windows" →
      strHasSuffix (getPlatformSpecificServerURL goos goarch) ".tar.gz" = true) ∧
    ((goos ≠ "darwin" ∧ goos ≠ "linux" ∧ goos ≠ "windows") →
      getPlatformSpecificMCPURL goos goarch = mcpBaseURL ++ "xmlui-mcp-mac-arm.tar.gz" ∧
      getPlatformSpecificServerURL goos goarch =
        serverBaseURL ++ "xmlui-test-server-mac-arm.tar.gz") := by
  by_cases h1 : goos = "darwin"
  · subst h1
    by_cases h2 : goarch = "arm64"
    · subst h2
      refine ⟨iff_of_false (by decide) (by decide), fun _ => by decide,
        iff_of_false (by decide) (by decide), fun _ => by decide,
        fun hc => absurd rfl hc.1⟩
    · have e1 : getPlatformSpecificMCPURL "darwin" goarch =
          mcpBaseURL ++ "xmlui-mcp-mac-amd.tar.gz" := by
        simp [getPlatformSpecificMCPURL, h2]
      have e2 : getPlatformSpecificServerURL "darwin" goarch =
          serverBaseURL ++ "xmlui-test-server-mac-amd.tar.gz" := by
        simp [getPlatformSpecificServerURL, h2]
      refine ⟨?_, fun _ => ?_, ?_, fun _ => ?_, fun hc => absurd rfl hc.1⟩
      · rw [e1]
        exact iff_of_false (by decide) (by decide)
      · rw [e1]
        decide
      · rw [e2]
        exact iff_of_false (by decide) (by decide)
      · rw [e2]
        decide
  · by_cases h3 : goos = "linux"
    · subst h3
      have e2 : getPlatformSpecificServerURL "linux" goarch =
          serverBaseURL ++ "xmlui-test-server-linux-amd64.tar.gz" := rfl
      refine ⟨?_, fun hc => absurd rfl hc.2, ?_, fun _ => ?_, fun hc => absurd rfl hc.2.1⟩
      · exact iff_of_true rfl (Or.inr rfl)
      · rw [e2]
        exact iff_of_false (by decide) (by decide)
      · rw [e2]
        decide
    · by_cases h4 : goos = "windows"
      · subst h4
        refine ⟨?_, fun hc => absurd rfl hc.1, ?_, fun hc => absurd rfl hc,
          fun hc => absurd rfl hc.2.2⟩
        · exact iff_of_true rfl (Or.inl rfl)
        · exact iff_of_true rfl rfl
      · have e1 : getPlatformSpecificMCPURL goos goarch =
            mcpBaseURL ++ "xmlui-mcp-mac-arm.tar.gz" := by
          simp [getPlatformSpecificMCPURL, h1, h3, h4]
        have e2 : getPlatformSpecificServerURL goos goarch =
            serverBaseURL ++ "xmlui-test-server-mac-arm.tar.gz" := by
          simp [getPlatformSpecificServerURL, h1, h3, h4]
        refine ⟨?_, fun _ => ?_, ?_, fun _ => ?_, fun _ => ⟨e1, e2⟩⟩
        · rw [e1]
          exact iff_of_false (by decide) (fun hc => hc.elim h4 h3)
        · rw [e1]
          decide
        · rw [e2]
          exact iff_of_false (by decide) h4
        · rw [e2]
          decide

/-- C1 witness: an unrecognized platform gets the gzip-tar default assets. -/
theorem C1_witness :
    strHasSuffix (getPlatformSpecificMCPURL "plan9" "sparc") ".tar.gz" = true ∧
    getPlatformSpecificServerURL "plan9" "sparc" =
      serverBaseURL ++ "xmlui-test-server-mac-arm.tar.gz" :=
  ⟨(C1_amended "plan9" "sparc").2.1 ⟨by decide, by decide⟩,
   ((C1_amended "plan9" "sparc").2.2.2.2 ⟨by decide, by decide, by decide⟩).2⟩

/-- C9: outside darwin both resolvers ignore the CPU architecture — the
URL is the same fixed asset for any two architectures — and in particular
linux with any architecture (such as arm64) receives the amd64 assets. -/
theorem C9_arch_ignored (goos goarch1 goarch2 : String) (h : goos ≠ "darwin") :
    getPlatformSpecificMCPURL goos goarch1 = getPlatformSpecificMCPURL goos goarch2 ∧
    getPlatformSpecificServerURL goos goarch1 = getPlatformSpecificServerURL goos goarch2 ∧
    getPlatformSpecificMCPURL "linux" goarch1 = mcpBaseURL ++ "xmlui-mcp-linux-amd64.zip" ∧
    getPlatformSpecificServerURL "linux" goarch1 =
      serverBaseURL ++ "xmlui-test-server-linux-amd64.tar.gz" := by
  refine ⟨?_, ?_, rfl, rfl⟩
  · simp only [getPlatformSpecificMCPURL, if_neg h]
  · simp only [getPlatformSpecificServerURL, if_neg h]

/-- C9 witness: linux on arm64 receives the amd64 tool asset. -/
theorem C9_witness :
    getPlatformSpecificMCPURL "linux" "arm64" = mcpBaseURL ++ "xmlui-mcp-linux-amd64.zip" :=
  (C9_arch_ignored "linux" "arm64" "amd64" (by decide)).2.2.1

/-- Zip extraction never changes the execute bits: the chmod of the Go
source exists only in untarGzTo. -/
lemma unzipLoop_execBits (dest : String) (cf wf : String → Bool)
    (es : List ZipEntry) (fs : FSState) :
    (unzipLoop dest cf wf es fs).fs.execBits = fs.execBits := by
  induction es generalizing fs with
  | nil => rfl
  | cons e rest ih =>
    simp only [unzipLoop]
    split
    · exact ih fs
    · cases hoe : e.openErr with
      | some msg => simp only [hoe]
      | none =>
        simp only [hoe]
        split
        · rfl
        · rw [ih]
          split <;> rfl

/-- Execute bits only accumulate along the tar extraction loop. -/
lemma untarGzLoop_execBits_mono (dest : String) (cf wf : String → Bool)
    (items : List TarItem) (fs : FSState) (p : String) (hp : p ∈ fs.execBits) :
    p ∈ (untarGzLoop dest cf wf items fs).fs.execBits := by
  induction items generalizing fs with
  | nil => exact hp
  | cons it rest ih =>
    cases it with
    | readErr msg => exact hp
    | entry g =>
      simp only [untarGzLoop]
      split
      · exact ih fs hp
      · split
        · exact hp
        · split
          · exact hp
          · apply ih
            split
            · exact List.mem_cons_of_mem _ hp
            · exact hp

/-- C2 fails on the code as stated: unzipTo extracts a file named with the
script extension .sh yet sets no execute bit — the chmod of the extractor
exists only in untarGzTo. -/
theorem C2_counterexample :
    unzipTo (some [⟨"bin/run.sh", false, none, "echo hi"⟩]) "dest"
        (fun _ => false) (fun _ => false) ⟨[], []⟩ =
      ⟨⟨[("dest/bin/run.sh", "echo hi")], []⟩, none⟩ ∧
    isExecName "dest/bin/run.sh" = true :=
  ⟨by decide, by decide⟩

/-- C2 (amended): only gzip-tar extraction applies the execute-permission
policy — in a tar extraction that completes without error, every extracted
file whose path ends in .sh or whose base name is one of the known
executable names ends up with the execute bit set — while zip extraction
sets no execute bit at all. -/
theorem C2_amended (dest : String) (cf wf : String → Bool) (items : List TarItem)
    (fs : FSState) (hd : TarHeader) (hmem : TarItem.entry hd ∈ items)
    (hdir : hd.isDir = false)
    (hexec : isExecName (joinPath dest hd.name) = true)
    (hok : (untarGzLoop dest cf wf items fs).err = none) :
    joinPath dest hd.name ∈ (untarGzLoop dest cf wf items fs).fs.execBits ∧
    (∀ a fs2, (unzipTo a dest cf wf fs2).fs.execBits = fs2.execBits) := by
  constructor
  · revert hmem hok
    induction items generalizing fs with
    | nil =>
      intro hmem _
      cases hmem
    | cons it rest ih =>
      intro hmem hok
      cases hmem with
      | head =>
        cases hcf : cf (joinPath dest hd.name) with
        | true => simp [untarGzLoop, hdir, hcf] at hok
        | false =>
          cases hwf : wf (joinPath dest hd.name) with
          | true => simp [untarGzLoop, hdir, hcf, hwf] at hok
          | false =>
            simp only [untarGzLoop, hdir, hcf, hwf, hexec, Bool.false_eq_true,
              if_false, if_true, chmodExec]
            exact untarGzLoop_execBits_mono dest cf wf rest _ _ (List.mem_cons_self _ _)
      | tail _ hmem2 =>
        cases it with
        | readErr msg => simp [untarGzLoop] at hok
        | entry g =>
          cases hgd : g.isDir with
          | true =>
            simp only [untarGzLoop, hgd, if_true] at hok ⊢
            exact ih fs hmem2 hok
          | false =>
            cases hcf : cf (joinPath dest g.name) with
            | true => simp [untarGzLoop, hgd, hcf] at hok
            | false =>
              cases hwf : wf (joinPath dest g.name) with
              | true => simp [untarGzLoop, hgd, hcf, hwf] at hok
              | false =>
                simp only [untarGzLoop, hgd, hcf, hwf, Bool.false_eq_true,
                  if_false] at hok ⊢
                exact ih _ hmem2 hok
  · intro a fs2
    cases a with
    | none => rfl
    | some es => exact unzipLoop_execBits dest cf wf es fs2

/-- Tar extraction processes a list of items left to right: a successful
prefix leaves a filesystem from which the remaining items continue. -/
lemma untarGzLoop_append (dest : String) (cf wf : String → Bool)
    (xs ys : List TarItem) (fs : FSState)
    (hok : (untarGzLoop dest cf wf xs fs).err = none) :
    untarGzLoop dest cf wf (xs ++ ys) fs =
      untarGzLoop dest cf wf ys (untarGzLoop dest cf wf xs fs).fs := by
  revert hok
  induction xs generalizing fs with
  | nil =>
    intro _
    rfl
  | cons it rest ih =>
    intro hok
    cases it with
    | readErr msg => simp [untarGzLoop] at hok
    | entry g =>
      cases hgd : g.isDir with
      | true =>
        simp only [List.cons_append, untarGzLoop, hgd, if_true] at hok ⊢
        exact ih fs hok
      | false =>
        cases hcf : cf (joinPath dest g.name) with
        | true => simp [untarGzLoop, hgd, hcf] at hok
        | false =>
          cases hwf : wf (joinPath dest g.name) with
          | true => simp [untarGzLoop, hgd, hcf, hwf] at hok
          | false =>
            simp only [List.cons_append, untarGzLoop, hgd, hcf, hwf,
              Bool.false_eq_true, if_false] at hok ⊢
            exact ih _ hok

/-- Zip extraction processes a list of entries left to right: a successful
prefix leaves a filesystem from which the remaining entries continue. -/
lemma unzipLoop_append (dest : String) (cf wf : String → Bool)
    (xs ys : List ZipEntry) (fs : FSState)
    (hok : (unzipLoop dest cf wf xs fs).err = none) :
    unzipLoop dest cf wf (xs ++ ys) fs =
      unzipLoop dest cf wf ys (unzipLoop dest cf wf xs fs).fs := by
  revert hok
  induction xs generalizing fs with
  | nil =>
    intro _
    rfl
  | cons e rest ih =>
    intro hok
    cases hgd : e.isDir with
    | true =>
      simp only [List.cons_append, unzipLoop, hgd, if_true] at hok ⊢
      exact ih fs hok
    | false =>
      cases hoe : e.openErr with
      | some msg => simp [unzipLoop, hgd, hoe] at hok
      | none =>
        cases hcf : cf (joinPath dest e.name) with
        | true => simp [unzipLoop, hgd, hoe, hcf] at hok
        | false =>
          simp only [List.cons_append, unzipLoop, hgd, hoe, hcf,
            Bool.false_eq_true, if_false] at hok ⊢
          exact ih _ hok

/-- C2 witness: a concrete tar archive delivering the xmlui-mcp binary
gets its execute bit set, and zip extraction leaves execute bits alone. -/
theorem C2_witness :
    "dest/xmlui-mcp" ∈ (untarGzLoop "dest" (fun _ => false) (fun _ => false)
        [TarItem.entry ⟨"xmlui-mcp", false, "bin"⟩] ⟨[], []⟩).fs.execBits ∧
    (∀ a fs2, (unzipTo a "dest" (fun _ => false) (fun _ => false) fs2).fs.execBits =
      fs2.execBits) :=
  C2_amended "dest" (fun _ => false) (fun _ => false)
    [TarItem.entry ⟨"xmlui-mcp", false, "bin"⟩] ⟨[], []⟩ ⟨"xmlui-mcp", false, "bin"⟩
    (by decide) rfl (by decide) (by decide)

/-- C3 fails on the code as stated: a filesystem write error while copying
the content of a zip entry is silently swallowed by unzipTo — the io.Copy
result is discarded, so extraction reports success with the file left
truncated instead of returning the error. -/
theorem C3_counterexample :
    unzipTo (some [⟨"a.txt", false, none, "data"⟩]) "dest"
        (fun _ => false) (fun _ => true) ⟨[], []⟩ =
      ⟨⟨[("dest/a.txt", "")], []⟩, none⟩ := by
  decide

/-- C3 (amended): malformed archive data, tar header read errors, and
file-create errors abort extraction immediately and propagate to the
caller with the filesystem so far untouched, and a content-write error
also aborts gzip-tar extraction; in zip extraction, however, a
content-write error is silently ignored and the loop continues with the
file left truncated.  The two sequencing conjuncts show the abort happens
exactly at the first failing item, with every file extracted by the
successful prefix left in place (no rollback). -/
theorem C3_amended (dest : String) (cf wf : String → Bool) (fs : FSState) :
    (untarGzTo none dest cf wf fs = ⟨fs, some "gzip: invalid header"⟩) ∧
    (∀ msg rest, untarGzLoop dest cf wf (TarItem.readErr msg :: rest) fs =
      ⟨fs, some msg⟩) ∧
    (∀ (h : TarHeader) rest, h.isDir = false → cf (joinPath dest h.name) = true →
      untarGzLoop dest cf wf (TarItem.entry h :: rest) fs =
        ⟨fs, some ("create failed: " ++ joinPath dest h.name)⟩) ∧
    (∀ (h : TarHeader) rest, h.isDir = false → cf (joinPath dest h.name) = false →
      wf (joinPath dest h.name) = true →
      untarGzLoop dest cf wf (TarItem.entry h :: rest) fs =
        ⟨writeFile fs (joinPath dest h.name) "",
          some ("copy failed: " ++ joinPath dest h.name)⟩) ∧
    (unzipTo none dest cf wf fs = ⟨fs, some "zip: not a valid zip file"⟩) ∧
    (∀ (e : ZipEntry) rest msg, e.isDir = false → e.openErr = some msg →
      unzipLoop dest cf wf (e :: rest) fs = ⟨fs, some msg⟩) ∧
    (∀ (e : ZipEntry) rest, e.isDir = false → e.openErr = none →
      cf (joinPath dest e.name) = true →
      unzipLoop dest cf wf (e :: rest) fs =
        ⟨fs, some ("create failed: " ++ joinPath dest e.name)⟩) ∧
    (∀ (e : ZipEntry) rest, e.isDir = false → e.openErr = none →
      cf (joinPath dest e.name) = false → wf (joinPath dest e.name) = true →
      unzipLoop dest cf wf (e :: rest) fs =
        unzipLoop dest cf wf rest (writeFile fs (joinPath dest e.name) "")) ∧
    (∀ xs ys, (untarGzLoop dest cf wf xs fs).err = none →
      untarGzLoop dest cf wf (xs ++ ys) fs =
        untarGzLoop dest cf wf ys (untarGzLoop dest cf wf xs fs).fs) ∧
    (∀ xs ys, (unzipLoop dest cf wf xs fs).err = none →
      unzipLoop dest cf wf (xs ++ ys) fs =
        unzipLoop dest cf wf ys (unzipLoop dest cf wf xs fs).fs) := by
  refine ⟨rfl, fun msg rest => rfl, ?_, ?_, rfl, ?_, ?_, ?_,
    fun xs ys hok => untarGzLoop_append dest cf wf xs ys fs hok,
    fun xs ys hok => unzipLoop_append dest cf wf xs ys fs hok⟩
  · intro h rest hd hc
    simp [untarGzLoop, hd, hc]
  · intro h rest hd hc hw
    simp [untarGzLoop, hd, hc, hw]
  · intro e rest msg hd hoe
    simp [unzipLoop, hd, hoe]
  · intro e rest hd hoe hc
    simp [unzipLoop, hd, hoe, hc]
  · intro e rest hd hoe hc hw
    simp [unzipLoop, hd, hoe, hc, hw]

/-- C3 witness: a concrete copy failure in a tar extraction aborts with
the copy error, keeping the previously extracted file in place. -/
theorem C3_witness :
    untarGzLoop "dest" (fun _ => false) (fun _ => true)
        [TarItem.entry ⟨"a.txt", false, "data"⟩] ⟨[("dest/prev.txt", "x")], []⟩ =
      ⟨writeFile ⟨[("dest/prev.txt", "x")], []⟩ "dest/a.txt" "",
        some ("copy failed: " ++ "dest/a.txt")⟩ :=
  (C3_amended "dest" (fun _ => false) (fun _ => true)
      ⟨[("dest/prev.txt", "x")], []⟩).2.2.2.1 ⟨"a.txt", false, "data"⟩ [] rfl rfl rfl

/-- C4: over the install directory listing, when at least one entry name
starts with repoName plus a dash (and the rename itself does not fail),
moveIntoPlace renames a matching entry to installDir/repoName and returns
that path; when no entry matches, it returns the layout error. -/
theorem C4_layout (rf : String → String → Bool) (es : List DirEntry)
    (srcParent rn installDir : String) (hrf : ∀ a b, rf a b = false) :
    ((∃ e, e ∈ es ∧ strStartsWith e.name (rn ++ "-") = true) →
      ∃ e, e ∈ es ∧ strStartsWith e.name (rn ++ "-") = true ∧
        moveIntoPlace rf (some es) srcParent rn installDir =
          Except.ok ⟨joinPath installDir rn, joinPath srcParent e.name,
            joinPath installDir rn⟩) ∧
    ((∀ e, e ∈ es → strStartsWith e.name (rn ++ "-") = false) →
      moveIntoPlace rf (some es) srcParent rn installDir =
        Except.error "repo dir not found") := by
  constructor
  · induction es with
    | nil =>
      intro hex
      rcases hex with ⟨e, he, _⟩
      cases he
    | cons a rest ih =>
      intro hex
      by_cases hm : strStartsWith a.name (rn ++ "-") = true
      · refine ⟨a, List.mem_cons_self _ _, hm, ?_⟩
        simp [moveIntoPlace, moveLoop, hm, hrf]
      · have hm2 : strStartsWith a.name (rn ++ "-") = false := by
          cases hb : strStartsWith a.name (rn ++ "-")
          · rfl
          · exact absurd hb hm
        have hex2 : ∃ e, e ∈ rest ∧ strStartsWith e.name (rn ++ "-") = true := by
          rcases hex with ⟨e, he, hme⟩
          cases he with
          | head => exact absurd hme hm
          | tail _ ht => exact ⟨e, ht, hme⟩
        rcases ih hex2 with ⟨e, he, hme, heq⟩
        refine ⟨e, List.mem_cons_of_mem _ he, hme, ?_⟩
        simpa [moveIntoPlace, moveLoop, hm2] using heq
  · induction es with
    | nil =>
      intro _
      rfl
    | cons a rest ih =>
      intro hall
      have hm : strStartsWith a.name (rn ++ "-") = false :=
        hall a (List.mem_cons_self _ _)
      have ih2 := ih (fun e he => hall e (List.mem_cons_of_mem _ he))
      simpa [moveIntoPlace, moveLoop, hm] using ih2

/-- C4 witness: a listing holding one matching entry is renamed to the
canonical application directory and that path returned. -/
theorem C4_witness :
    ∃ e, e ∈ [(⟨"README", false⟩ : DirEntry), ⟨"xmlui-invoice-main", true⟩] ∧
      strStartsWith e.name ("xmlui-invoice" ++ "-") = true ∧
      moveIntoPlace (fun _ _ => false)
          (some [⟨"README", false⟩, ⟨"xmlui-invoice-main", true⟩])
          "inst" "xmlui-invoice" "inst" =
        Except.ok ⟨joinPath "inst" "xmlui-invoice",
          joinPath "inst" e.name, joinPath "inst" "xmlui-invoice"⟩ :=
  (C4_layout (fun _ _ => false) [⟨"README", false⟩, ⟨"xmlui-invoice-main", true⟩]
      "inst" "xmlui-invoice" "inst" (fun _ _ => rfl)).1
    ⟨⟨"xmlui-invoice-main", true⟩, by decide, by decide⟩

/-- C10: with several matching entries, only the first match in listing
order is renamed — the result records a single rename, of the first
matching entry, and does not depend on the entries after it — and the
matched entry need not be a directory, since the isDir flag of the entry
is never consulted. -/
theorem C10_first_match (rf : String → String → Bool) (xs ys : List DirEntry)
    (m : DirEntry) (srcParent rn installDir : String)
    (hxs : ∀ e, e ∈ xs → strStartsWith e.name (rn ++ "-") = false)
    (hm : strStartsWith m.name (rn ++ "-") = true)
    (hrf : rf (joinPath srcParent m.name) (joinPath installDir rn) = false) :
    moveIntoPlace rf (some (xs ++ m :: ys)) srcParent rn installDir =
      Except.ok ⟨joinPath installDir rn, joinPath srcParent m.name,
        joinPath installDir rn⟩ := by
  induction xs with
  | nil => simp [moveIntoPlace, moveLoop, hm, hrf]
  | cons a rest ih =>
    have ha : strStartsWith a.name (rn ++ "-") = false :=
      hxs a (List.mem_cons_self _ _)
    have ih2 := ih (fun e he => hxs e (List.mem_cons_of_mem _ he))
    simpa [moveIntoPlace, moveLoop, ha] using ih2

/-- C10 witness: with two matching entries (the first a plain file), only
the first is renamed, the later matching directory is untouched. -/
theorem C10_witness :
    moveIntoPlace (fun _ _ => false)
        (some [⟨"README.md", false⟩, ⟨"xmlui-invoice-main", false⟩,
          ⟨"xmlui-invoice-dev", true⟩]) "inst" "xmlui-invoice" "inst" =
      Except.ok ⟨"inst/xmlui-invoice", "inst/xmlui-invoice-main",
        "inst/xmlui-invoice"⟩ :=
  C10_first_match (fun _ _ => false) [⟨"README.md", false⟩]
    [⟨"xmlui-invoice-dev", true⟩] ⟨"xmlui-invoice-main", false⟩
    "inst" "xmlui-invoice" "inst" (by decide) (by decide) rfl

/-- A suffix of the right part of a concatenation is a suffix of the
whole. -/
lemma strHasSuffix_append (s t pat : String) (h : strHasSuffix t pat = true) :
    strHasSuffix (s ++ t) pat = true := by
  unfold strHasSuffix at h ⊢
  rw [List.isSuffixOf_iff_suffix] at h ⊢
  rw [String.data_append]
  exact h.trans (List.suffix_append _ _)

/-- C5: on a non-200 response, a 401 against the private-repository host
yields the distinguished authentication-failure error, whose message names
the required credential secret PAT_TOKEN; any other non-200 status yields
the generic request-failed error carrying status and URL; a 200 response
yields the body bytes. -/
theorem C5_fetch_errors (url : String) (resp : HttpResponse) :
    (resp.statusCode ≠ 200 → strContains url privateRepoPat = true →
      resp.statusCode = 401 →
      downloadResponseCheck url resp = Except.error (authFailMsg url resp.status) ∧
      strHasSuffix (authFailMsg url resp.status) "PAT_TOKEN" = true) ∧
    (resp.statusCode ≠ 200 →
      ¬(strContains url privateRepoPat = true ∧ resp.statusCode = 401) →
      downloadResponseCheck url resp =
        Except.error (requestFailMsg resp.status url)) ∧
    (resp.statusCode = 200 → resp.readErr = none →
      downloadResponseCheck url resp = Except.ok resp.body) := by
  refine ⟨?_, ?_, ?_⟩
  · intro hne hpriv h401
    constructor
    · simp [downloadResponseCheck, hne, hpriv, h401]
    · unfold authFailMsg
      exact strHasSuffix_append _ _ _ (by decide)
  · intro hne hnot
    have hcond : (strContains url privateRepoPat && resp.statusCode == 401) = false := by
      cases hc : strContains url privateRepoPat with
      | false => rfl
      | true =>
        cases h4 : resp.statusCode == 401 with
        | false => rfl
        | true => exact absurd ⟨hc, by simpa using h4⟩ hnot
    simp [downloadResponseCheck, hne, hcond]
  · intro h200 hre
    simp [downloadResponseCheck, h200, hre]

/-- C5 witness: a concrete 401 against the private host produces the
authentication error naming PAT_TOKEN, and a concrete 404 elsewhere the
generic request-failed error. -/
theorem C5_witness :
    (downloadResponseCheck "https://codeload.github.com/xmlui-com/xmlui/zip/refs/heads/main"
        ⟨401, "401 Unauthorized", none, []⟩ =
      Except.error (authFailMsg
        "https://codeload.github.com/xmlui-com/xmlui/zip/refs/heads/main"
        "401 Unauthorized") ∧
      strHasSuffix (authFailMsg
        "https://codeload.github.com/xmlui-com/xmlui/zip/refs/heads/main"
        "401 Unauthorized") "PAT_TOKEN" = true) ∧
    downloadResponseCheck "https://example.com/a.zip" ⟨404, "404 Not Found", none, []⟩ =
      Except.error (requestFailMsg "404 Not Found" "https://example.com/a.zip") :=
  ⟨(C5_fetch_errors "https://codeload.github.com/xmlui-com/xmlui/zip/refs/heads/main"
      ⟨401, "401 Unauthorized", none, []⟩).1 (by decide) (by decide) rfl,
   (C5_fetch_errors "https://example.com/a.zip" ⟨404, "404 Not Found", none, []⟩).2.1
      (by decide) (fun hc => by exact absurd hc.1 (by decide))⟩

/-- Appending a moved line does not change any skip count. -/
lemma skipCount_append_moved (logs : List LogMsg) (a b f : String) :
    skipCount (logs ++ [LogMsg.moved a b]) f = skipCount logs f := by
  unfold skipCount
  rw [List.countP_append]
  simp [List.countP_cons]

/-- Appending the skip line for f raises the skip count for f by one. -/
lemma skipCount_append_skipped_self (logs : List LogMsg) (f : String) :
    skipCount (logs ++ [LogMsg.skipped f]) f = skipCount logs f + 1 := by
  unfold skipCount
  rw [List.countP_append]
  simp [List.countP_cons]

/-- Appending a skip line for a different name leaves the skip count for f
unchanged. -/
lemma skipCount_append_skipped_ne (logs : List LogMsg) (n f : String) (h : f ≠ n) :
    skipCount (logs ++ [LogMsg.skipped n]) f = skipCount logs f := by
  unfold skipCount
  rw [List.countP_append]
  simp [List.countP_cons, Ne.symm h]

/-- The staging set after a successful move is the previous one with the
moved name erased. -/
lemma relocMove_staged (goos mcpDir name : String) (st : RelocState) :
    (relocMove goos mcpDir name st).staged = st.staged.erase name := by
  unfold relocMove
  split <;> rfl

/-- A successful move puts the name in front of the mcp file list. -/
lemma relocMove_mcpFiles (goos mcpDir name : String) (st : RelocState) :
    (relocMove goos mcpDir name st).mcpFiles = name :: st.mcpFiles := by
  unfold relocMove
  split <;> rfl

/-- A successful move appends exactly the moved line to the log. -/
lemma relocMove_logs (goos mcpDir name : String) (st : RelocState) :
    (relocMove goos mcpDir name st).logs =
      st.logs ++ [LogMsg.moved name (joinPath mcpDir name)] := by
  unfold relocMove
  split <;> rfl

/-- The mcp file set only grows along the relocation loop. -/
lemma relocateLoop_mcp_mono (goos mcpDir : String) (names : List String)
    (st : RelocState) (f : String) (hf : f ∈ st.mcpFiles) :
    f ∈ (relocateLoop goos mcpDir names st).mcpFiles := by
  induction names generalizing st with
  | nil => exact hf
  | cons n rest ih =>
    simp only [relocateLoop]
    split
    · refine ih _ ?_
      rw [relocMove_mcpFiles]
      exact List.mem_cons_of_mem _ hf
    · exact ih _ hf

/-- Processing names other than f never changes the skip count for f. -/
lemma relocateLoop_skipCount_not_mem (goos mcpDir : String) (names : List String)
    (st : RelocState) (f : String) (hf : f ∉ names) :
    skipCount (relocateLoop goos mcpDir names st).logs f = skipCount st.logs f := by
  induction names generalizing st with
  | nil => rfl
  | cons n rest ih =>
    have hfn : f ≠ n := fun he => hf (he ▸ List.mem_cons_self n rest)
    have hfr : f ∉ rest := fun he => hf (List.mem_cons_of_mem _ he)
    simp only [relocateLoop]
    split
    · rw [ih _ hfr, relocMove_logs, skipCount_append_moved]
    · rw [ih _ hfr]
      exact skipCount_append_skipped_ne st.logs n f hfn

/-- Core induction for the relocation loop over a duplicate-free name
list: an absent name gains exactly one skip line, a present name is moved
into the mcp set with no skip line. -/
lemma relocateLoop_spec (goos mcpDir : String) (names : List String)
    (st : RelocState) (f : String) (hf : f ∈ names) (hnd : names.Nodup) :
    (f ∉ st.staged →
      skipCount (relocateLoop goos mcpDir names st).logs f = skipCount st.logs f + 1) ∧
    (f ∈ st.staged →
      f ∈ (relocateLoop goos mcpDir names st).mcpFiles ∧
      skipCount (relocateLoop goos mcpDir names st).logs f = skipCount st.logs f) := by
  revert hf hnd
  induction names generalizing st with
  | nil =>
    intro hf _
    cases hf
  | cons n rest ih =>
    intro hf hnd
    rcases List.nodup_cons.mp hnd with ⟨hnr, hndr⟩
    by_cases hfn : f = n
    · subst hfn
      constructor
      · intro hnst
        rw [show relocateLoop goos mcpDir (f :: rest) st =
            relocateLoop goos mcpDir rest
              { st with logs := st.logs ++ [LogMsg.skipped f] } from by
          simp only [relocateLoop, if_neg hnst]]
        rw [relocateLoop_skipCount_not_mem goos mcpDir rest _ f hnr]
        exact skipCount_append_skipped_self st.logs f
      · intro hst
        rw [show relocateLoop goos mcpDir (f :: rest) st =
            relocateLoop goos mcpDir rest (relocMove goos mcpDir f st) from by
          simp only [relocateLoop, if_pos hst]]
        constructor
        · apply relocateLoop_mcp_mono
          rw [relocMove_mcpFiles]
          exact List.mem_cons_self _ _
        · rw [relocateLoop_skipCount_not_mem goos mcpDir rest _ f hnr, relocMove_logs]
          exact skipCount_append_moved st.logs f _ f
    · have hfr : f ∈ rest := by
        cases hf with
        | head => exact absurd rfl hfn
        | tail _ ht => exact ht
      by_cases hnst : n ∈ st.staged
      · rw [show relocateLoop goos mcpDir (n :: rest) st =
            relocateLoop goos mcpDir rest (relocMove goos mcpDir n st) from by
          simp only [relocateLoop, if_pos hnst]]
        have hres := ih (relocMove goos mcpDir n st) hfr hndr
        constructor
        · intro hnstf
          have hnstf2 : f ∉ (relocMove goos mcpDir n st).staged := by
            rw [relocMove_staged]
            intro hc
            exact hnstf (List.mem_of_mem_erase hc)
          rw [hres.1 hnstf2, relocMove_logs, skipCount_append_moved]
        · intro hstf
          have hstf2 : f ∈ (relocMove goos mcpDir n st).staged := by
            rw [relocMove_staged]
            exact (List.mem_erase_of_ne hfn).mpr hstf
          rcases hres.2 hstf2 with ⟨hmcp, hcnt⟩
          refine ⟨hmcp, ?_⟩
          rw [hcnt, relocMove_logs, skipCount_append_moved]
      · rw [show relocateLoop goos mcpDir (n :: rest) st =
            relocateLoop goos mcpDir rest
              { st with logs := st.logs ++ [LogMsg.skipped n] } from by
          simp only [relocateLoop, if_neg hnst]]
        have hres := ih { st with logs := st.logs ++ [LogMsg.skipped n] } hfr hndr
        constructor
        · intro hnstf
          rw [hres.1 hnstf]
          rw [skipCount_append_skipped_ne st.logs n f hfn]
        · intro hstf
          rcases hres.2 hstf with ⟨hmcp, hcnt⟩
          exact ⟨hmcp, by rw [hcnt, skipCount_append_skipped_ne st.logs n f hfn]⟩

/-- C6: relocating the platform's expected file list never aborts the
run — every expected file present in staging is moved into the mcp
directory, and every absent one produces exactly one logged skip line
while the loop continues with the remaining files. -/
theorem C6_relocation_skips (goos mcpDir : String) (staged : List String)
    (f : String) (hf : f ∈ expectedFiles goos) :
    (f ∉ staged →
      skipCount (relocateExpected goos mcpDir ⟨staged, [], [], []⟩).logs f = 1) ∧
    (f ∈ staged →
      f ∈ (relocateExpected goos mcpDir ⟨staged, [], [], []⟩).mcpFiles ∧
      skipCount (relocateExpected goos mcpDir ⟨staged, [], [], []⟩).logs f = 0) := by
  have hnd : (expectedFiles goos).Nodup := by
    unfold expectedFiles
    split <;> decide
  have h := relocateLoop_spec goos mcpDir (expectedFiles goos) ⟨staged, [], [], []⟩ f hf hnd
  simpa [relocateExpected, skipCount] using h

/-- C6 witness: on linux with prepare-binaries.sh absent from staging, the
run completes with exactly one skip line for it, and the present
xmlui-mcp is moved. -/
theorem C6_witness :
    (skipCount (relocateExpected "linux" "inst/mcp"
        ⟨["xmlui-mcp", "xmlui-mcp-client", "run-mcp-client.sh"], [], [], []⟩).logs
      "prepare-binaries.sh" = 1) ∧
    "xmlui-mcp" ∈ (relocateExpected "linux" "inst/mcp"
        ⟨["xmlui-mcp", "xmlui-mcp-client", "run-mcp-client.sh"], [], [], []⟩).mcpFiles :=
  ⟨(C6_relocation_skips "linux" "inst/mcp"
      ["xmlui-mcp", "xmlui-mcp-client", "run-mcp-client.sh"]
      "prepare-binaries.sh" (by decide)).1 (by decide),
   ((C6_relocation_skips "linux" "inst/mcp"
      ["xmlui-mcp", "xmlui-mcp-client", "run-mcp-client.sh"]
      "xmlui-mcp" (by decide)).2 (by decide)).1⟩

/-- C7 fails on the code as stated: when mcp/docs is non-empty — the
normal situation at this point of the run, since the component copy of
xmlui-bundler.go lines 243-255 populates mcp/docs before the stray move —
the os.Rename of the root-level docs directory onto the existing non-empty
mcp/docs fails, the orchestrator only prints a warning, and docs stays at
the install root instead of moving under mcp. -/
theorem C7_counterexample :
    (moveStrayDirs ⟨true, false, true, false, true, false, []⟩).rootDocs = true ∧
    (moveStrayDirs ⟨true, false, true, false, true, false, []⟩).warnings =
      ["Could not move docs directory"] :=
  ⟨by decide, by decide⟩

/-- C7 (amended): the orchestrator attempts to rename root-level docs and
src onto mcp/docs and mcp/src; the move succeeds when the target directory
is empty, and otherwise the rename fails, a warning naming the directory
is printed, and the root-level directory is left in place. -/
theorem C7_amended (st : StrayState) :
    (st.rootDocs = true → st.mcpDocsNonempty = false →
      (moveStrayDirs st).rootDocs = false) ∧
    (st.rootDocs = true → st.mcpDocsNonempty = true →
      (moveStrayDirs st).rootDocs = true ∧
      "Could not move docs directory" ∈ (moveStrayDirs st).warnings) ∧
    (st.rootSrc = true → st.mcpSrcNonempty = false →
      (moveStrayDirs st).rootSrc = false) ∧
    (st.rootSrc = true → st.mcpSrcNonempty = true →
      (moveStrayDirs st).rootSrc = true ∧
      "Could not move src directory" ∈ (moveStrayDirs st).warnings) := by
  obtain ⟨d, s, dn, sn, mdn, msn, w⟩ := st
  cases d <;> cases s <;> cases mdn <;> cases msn <;>
    simp [moveStrayDirs, moveStrayDocs, moveStraySrc, renameOntoDirSucceeds]

/-- C7 witness: with an empty mcp/docs target the root docs directory is
moved; with a non-empty mcp/src target the root src directory stays and a
warning is printed. -/
theorem C7_witness :
    (moveStrayDirs ⟨true, false, true, false, false, false, []⟩).rootDocs = false ∧
    (moveStrayDirs ⟨false, true, false, true, false, true, []⟩).rootSrc = true ∧
    "Could not move src directory" ∈
      (moveStrayDirs ⟨false, true, false, true, false, true, []⟩).warnings :=
  ⟨(C7_amended ⟨true, false, true, false, false, false, []⟩).1 rfl rfl,
   ((C7_amended ⟨false, true, false, true, false, true, []⟩).2.2.2 rfl rfl).1,
   ((C7_amended ⟨false, true, false, true, false, true, []⟩).2.2.2 rfl rfl).2⟩

/-- C8: after the two staging cleanups, no path under xmlui-source and no
path under mcpTmp remains in the install directory, and every path outside
those two staging subtrees survives the cleanup untouched. -/
theorem C8_cleanup (fsPaths : List (List String)) :
    (∀ p, p ∈ cleanupStagingDirs fsPaths →
      ["xmlui-source"].isPrefixOf p = false ∧ ["mcpTmp"].isPrefixOf p = false) ∧
    (∀ p, p ∈ fsPaths → ["xmlui-source"].isPrefixOf p = false →
      ["mcpTmp"].isPrefixOf p = false → p ∈ cleanupStagingDirs fsPaths) := by
  constructor
  · intro p hp
    unfold cleanupStagingDirs removeAll at hp
    rcases List.mem_filter.mp hp with ⟨hp1, hp2⟩
    rcases List.mem_filter.mp hp1 with ⟨_, hp3⟩
    constructor
    · simpa using hp3
    · simpa using hp2
  · intro p hp h1 h2
    unfold cleanupStagingDirs removeAll
    refine List.mem_filter.mpr ⟨List.mem_filter.mpr ⟨hp, ?_⟩, ?_⟩
    · simp [h1]
    · simp [h2]

/-- C8 witness: the staging contents disappear while a file under mcp
survives the cleanup. -/
theorem C8_witness :
    ["mcp", "xmlui-mcp"] ∈ cleanupStagingDirs
      [["xmlui-source", "docs", "a.md"], ["mcpTmp", "xmlui-mcp"],
        ["mcp", "xmlui-mcp"]] :=
  (C8_cleanup [["xmlui-source", "docs", "a.md"], ["mcpTmp", "xmlui-mcp"],
      ["mcp", "xmlui-mcp"]]).2 ["mcp", "xmlui-mcp"] (by decide) (by decide) (by decide)
